import Mathlib

/-!
Shallow embedding of the status-aggregation core of `wait-for-green`
(`src/main.ts`, plus the refactored variant of `checkChecks` /
`shouldIgnoreCheck` found in the repository's unnamed sources).

Modelling conventions:
* JavaScript strings are Lean `String`s, manipulated through their
  character lists (`String.toList`) so that all operations kernel-reduce;
  timestamps are the already-parsed epoch milliseconds (`Int`, the result
  of `new Date(x).getTime()`), with `Option Int` for fields that may be
  `null`.
* Functions that call `core.warning` are embedded with their warning made
  explicit (a `Bool` component, or a list of emitted warning subjects);
  `core.info` logging is ignored, as it carries no decision content.
* JavaScript `Array.includes` is membership, `Array.every` is a bounded
  universal, `String.split(',')` splits the character list on `','`,
  `a ?? b` on nullable fields is a `match` on the `Option`.
* The plain JS object used as a dictionary is embedded as an association
  list updated in place (`updateKey`): JS objects keep the first-insertion
  position of a key on update and append new keys at the end, and
  `Object.values` enumerates in that order.
-/

/-- The `Status` enum of `src/main.ts` (lines 22-29). -/
inductive Status : Type where
  | unknown : Status
  | failure : Status
  | canceled : Status
  | skipped : Status
  | pending : Status
  | success : Status
deriving DecidableEq, Repr

/-- Model of JavaScript `RegExp.prototype.test` matching-at-a-position, for
the fragment of regex syntax this repository's rules exercise: literal
characters, the `.` wildcard, the postfix `*` repetition, and a leading `^`
anchor. `matchHere p t` asks whether pattern `p` matches a prefix of text
`t`. -/
def matchHere : List Char → List Char → Bool
  | [], _ => true
  | c :: '*' :: pr, t => matchStarLoop c (matchHere pr) t
  | _ :: _, [] => false
  | c :: pr, ch :: tr => (c = '.' || c = ch) && matchHere pr tr
where
  /-- Kleene-star loop: try the continuation at every position reachable by
  consuming characters matched by `c`. -/
  matchStarLoop (c : Char) (k : List Char → Bool) : List Char → Bool
    | [] => k []
    | ch :: tr => k (ch :: tr) || ((c = '.' || c = ch) && matchStarLoop c k tr)

/-- Unanchored regex search on character lists: `RegExp.test` succeeds if
the pattern matches starting at any position of the text (a leading `^`
anchors it to the start). -/
def regexSearch (pattern text : List Char) : Bool :=
  match pattern with
  | '^' :: pr => matchHere pr text
  | p => searchAll p text
where
  searchAll (p : List Char) : List Char → Bool
    | [] => matchHere p []
    | ch :: tr => matchHere p (ch :: tr) || searchAll p tr

/-- JavaScript `String.prototype.split` with a single-character separator,
on character lists: `"".split(s)` is `[""]`, separators at the ends produce
empty fields. -/
def splitOnChar (sep : Char) : List Char → List (List Char)
  | [] => [[]]
  | c :: cs =>
    if c = sep then [] :: splitOnChar sep cs
    else
      match splitOnChar sep cs with
      | [] => [[c]]
      | h :: t => (c :: h) :: t

/-- `shouldIgnoreCheck` from `src/main.ts` (lines 31-41), on character
lists: empty rule ignores nothing; a rule that starts and ends with `/` is
a regex tested against the name (`ignored.slice(1, -1)` drops the first and
last character); otherwise the rule is a comma-separated list and the name
must appear verbatim (`Array.includes`). -/
def shouldIgnoreCheckL (ignored checkName : List Char) : Bool :=
  if ignored = [] then false
  else if ignored.head? = some '/' ∧ ignored.getLast? = some '/' then
    regexSearch (ignored.drop 1).dropLast checkName
  else
    decide (checkName ∈ splitOnChar ',' ignored)

/-- `shouldIgnoreCheck` on `String`s. -/
def shouldIgnoreCheck (ignored checkName : String) : Bool :=
  shouldIgnoreCheckL ignored.toList checkName.toList

/-- `checkToStatus` from `src/main.ts` (lines 43-66), with the
`core.warning` of the `default` branch made explicit as the second
component. -/
def checkToStatus (status : String) : Status × Bool :=
  if status = "success" ∨ status = "neutral" then (.success, false)
  else if status = "failure" ∨ status = "timed_out" then (.failure, false)
  else if status = "pending" ∨ status = "action_required" ∨ status = "queued"
      ∨ status = "in_progress" then (.pending, false)
  else if status = "skipped" then (.skipped, false)
  else if status = "canceled" ∨ status = "cancelled" then (.canceled, false)
  else (.unknown, true)

/-- `stringToStatus` from `src/main.ts` (lines 68-80), warning explicit. -/
def stringToStatus (status : String) : Status × Bool :=
  if status = "success" then (.success, false)
  else if status = "failure" then (.failure, false)
  else if status = "pending" then (.pending, false)
  else (.unknown, true)

example : shouldIgnoreCheck "/^lint.*/" "lint-ts" = true := by decide
example : shouldIgnoreCheck "a,b,c" "b" = true := by decide
example : shouldIgnoreCheck "a,b,c" "d" = false := by decide
example : shouldIgnoreCheck "" "anything" = false := by decide
example : shouldIgnoreCheck "/" "whatever" = true := by decide
example : checkToStatus "neutral" = (.success, false) := by decide
example : checkToStatus "bogus" = (.unknown, true) := by decide
example : stringToStatus "error" = (.unknown, true) := by decide

/-- One element of `status.statuses` in `combinedStatusToStatus`: a commit
status with its context name, last-update time (epoch ms) and state
string. -/
structure SimpleStatus : Type where
  context : String
  updated_at : Int
  state : String
deriving DecidableEq, Repr

/-- One element of `checks.data.check_runs` in `checkChecks`: a check run
with its name, optional completion/start times (epoch ms), optional
conclusion, status string, and the owning check suite's id (the API's
`check_suite?.id`, unused by `src/main.ts` but used as part of the
aggregation key by the refactored variant). -/
structure CheckRun : Type where
  name : String
  completed_at : Option Int
  started_at : Option Int
  conclusion : Option String
  status : String
  check_suite_id : Option Int
deriving DecidableEq, Repr

/-- `checkStatus.completed_at ?? checkStatus.started_at`. -/
def tsOf (c : CheckRun) : Option Int :=
  match c.completed_at with
  | some t => some t
  | none => c.started_at

/-- `checkStatus.conclusion ?? checkStatus.status`. -/
def rawOf (c : CheckRun) : String :=
  match c.conclusion with
  | some s => s
  | none => c.status

/-- The dictionary update both dedup loops perform: look the key up; if
absent, insert at the end; if present with a strictly smaller stored
timestamp, overwrite in place; otherwise keep the stored entry
(`if (!existing || existing[0] < ts) \x7b ... \x7d`). -/
def updateKey (m : List (String × Int × Status)) (k : String) (ts : Int)
    (st : Status) : List (String × Int × Status) :=
  match m with
  | [] => [(k, ts, st)]
  | (k', ts', st') :: rest =>
    if k' = k then
      if ts' < ts then (k, ts, st) :: rest else (k', ts', st') :: rest
    else
      (k', ts', st') :: updateKey rest k ts st

/-- Folding a stream of (key, timestamp, status) entries through
`updateKey`, starting from the empty dictionary — the shape shared by both
dedup loops. -/
def dedupFold (l : List (String × Int × Status)) : List (String × Int × Status) :=
  l.foldl (fun m e => updateKey m e.1 e.2.1 e.2.2) []

/-- The entries the `forEach` of `combinedStatusToStatus` (lines 89-111)
feeds to its dictionary: ignored contexts are skipped, the rest carry
`(context, updated_at, stringToStatus(state))`. -/
def statusEntries (ignored : String) (ss : List SimpleStatus) :
    List (String × Int × Status) :=
  ss.filterMap fun s =>
    if shouldIgnoreCheck ignored s.context then none
    else some (s.context, s.updated_at, (stringToStatus s.state).1)

/-- The per-context dictionary of `combinedStatusToStatus`. -/
def statusByContext (ignored : String) (ss : List SimpleStatus) :
    List (String × Int × Status) :=
  dedupFold (statusEntries ignored ss)

/-- The reduction of `combinedStatusToStatus` (lines 113-133): any
`Failure`/`Canceled` wins, then `Pending`, then all-`Success`/`Skipped` (or
an empty set) is `Success`, otherwise `Unknown` with a warning. -/
def reduceStatuses (vals : List Status) : Status :=
  if Status.failure ∈ vals ∨ Status.canceled ∈ vals then .failure
  else if Status.pending ∈ vals then .pending
  else if (∀ v ∈ vals, v = Status.success ∨ v = Status.skipped) ∨ vals.length = 0 then
    .success
  else .unknown

/-- `combinedStatusToStatus` from `src/main.ts` (lines 82-134). -/
def combinedStatusToStatus (statuses : List SimpleStatus) (ignored : String) :
    Status :=
  reduceStatuses ((statusByContext ignored statuses).map (fun x => x.2.2))

/-- The entries the `forEach` of `checkChecks` in `src/main.ts` (lines
144-174) feeds to its dictionary: ignored names are skipped; a run with
neither `completed_at` nor `started_at` is skipped (with a warning, see
`droppedNoTs`); the rest carry `(name, timestamp,
checkToStatus(conclusion ?? status))`. The aggregation key is the check
name alone. -/
def checkEntries (ignored : String) (cs : List CheckRun) :
    List (String × Int × Status) :=
  cs.filterMap fun c =>
    if shouldIgnoreCheck ignored c.name then none
    else
      match tsOf c with
      | none => none
      | some ts => some (c.name, ts, (checkToStatus (rawOf c)).1)

/-- The names for which `checkChecks` emits the
`no completed_at or started_at for check ...` warning: not ignored, but
with no derivable timestamp. -/
def droppedNoTs (ignored : String) (cs : List CheckRun) : List String :=
  cs.filterMap fun c =>
    if shouldIgnoreCheck ignored c.name then none
    else
      match tsOf c with
      | none => some c.name
      | some _ => none

/-- The per-name dictionary of `checkChecks` (`statusByName`). -/
def statusByName (ignored : String) (cs : List CheckRun) :
    List (String × Int × Status) :=
  dedupFold (checkEntries ignored cs)

/-- The reduction of `checkChecks` in `src/main.ts` (lines 176-193): any
`Failure`/`Canceled` wins, then `Pending` — with an EMPTY value set also
mapping to `Pending` — then all-`Success`/`Skipped` is `Success`, otherwise
`Unknown` with a warning. -/
def reduceChecks (vals : List Status) : Status :=
  if Status.failure ∈ vals ∨ Status.canceled ∈ vals then .failure
  else if Status.pending ∈ vals ∨ vals.length = 0 then .pending
  else if ∀ v ∈ vals, v = Status.success ∨ v = Status.skipped then .success
  else .unknown

/-- `checkChecks` from `src/main.ts` (lines 136-194), with the fetched
check runs passed in place of the API call. -/
def checkChecks (checks : List CheckRun) (ignored : String) : Status :=
  reduceChecks ((statusByName ignored checks).map (fun x => x.2.2))

/-- The aggregation key of the refactored `checkChecks` variant
(`part_004`, line 167): the string
`\x7b checkStatus.name \x7d | \x7b checkStatus.check_suite?.id \x7d`, where a
missing suite id renders as `undefined`. -/
def suiteKey (c : CheckRun) : String :=
  c.name ++ "|" ++ (match c.check_suite_id with
    | some i => toString i
    | none => "undefined")

/-- The dictionary entries of the refactored `checkChecks` variant
(`part_004`, lines 154-186): same skipping rules as `checkEntries`, but
keyed by `suiteKey`. -/
def checkEntriesV2 (ignored : String) (cs : List CheckRun) :
    List (String × Int × Status) :=
  cs.filterMap fun c =>
    if shouldIgnoreCheck ignored c.name then none
    else
      match tsOf c with
      | none => none
      | some ts => some (suiteKey c, ts, (checkToStatus (rawOf c)).1)

/-- The per-(name, suite) dictionary of the refactored `checkChecks`. -/
def statusByNameV2 (ignored : String) (cs : List CheckRun) :
    List (String × Int × Status) :=
  dedupFold (checkEntriesV2 ignored cs)

/-- The reduction of the refactored `checkChecks` (`part_004`, lines
201-223): as `reduceChecks`, except the `statusValues.length === 0`
disjunct sits INSIDE the `every` callback, so an empty value set falls
through to the `every` test and yields `Success`. -/
def reduceChecksV2 (vals : List Status) : Status :=
  if Status.failure ∈ vals ∨ Status.canceled ∈ vals then .failure
  else if Status.pending ∈ vals then .pending
  else if ∀ v ∈ vals, v = Status.success ∨ v = Status.skipped ∨ vals.length = 0 then
    .success
  else .unknown

/-- The refactored `checkChecks` (`part_004`, lines 143-224). -/
def checkChecksV2 (checks : List CheckRun) (ignored : String) : Status :=
  reduceChecksV2 ((statusByNameV2 ignored checks).map (fun x => x.2.2))

/-- Outcome of one polling session (`run`, lines 256-277): the value of the
`success` output, whether the `timed out waiting for checks to complete`
warning fired, how many attempts executed, and how many times `sleep` was
called. -/
structure PollResult : Type where
  success : Bool
  timedOut : Bool
  attempts : Nat
  sleeps : Nat
deriving DecidableEq, Repr

/-- The attempt loop of `run`, with `fuel` remaining iterations, `attempt`
the current index and `sleeps` the sleeps so far. Each iteration reads the
pair (checks aggregate, statuses aggregate) for its attempt from the feed
`f`; both `Success` stops with `success=true`, either `Failure` stops with
`success=false`, otherwise the loop sleeps and retries; an exhausted loop
warns about the timeout and sets `success=false`. -/
def runAux (f : Nat → Status × Status) : Nat → Nat → Nat → PollResult
  | 0, attempt, sleeps => ⟨false, true, attempt, sleeps⟩
  | fuel + 1, attempt, sleeps =>
    let p := f attempt
    if p.1 = Status.success ∧ p.2 = Status.success then
      ⟨true, false, attempt + 1, sleeps⟩
    else if p.1 = Status.failure ∨ p.2 = Status.failure then
      ⟨false, false, attempt + 1, sleeps⟩
    else
      runAux f fuel (attempt + 1) (sleeps + 1)

/-- The polling loop of `run` (`src/main.ts`, lines 256-277), abstracted
over the per-attempt aggregate pair: attempts `0..maxAttempts-1`. -/
def runLoop (f : Nat → Status × Status) (maxAttempts : Nat) : PollResult :=
  runAux f maxAttempts 0 0

/-- The stopping condition of the first branch of the loop body:
`checks === Status.Success && statuses === Status.Success`. -/
abbrev bothSuccess (p : Status × Status) : Prop :=
  p.1 = Status.success ∧ p.2 = Status.success

/-- The stopping condition of the second branch:
`checks === Status.Failure || statuses === Status.Failure`. -/
abbrev anyFailure (p : Status × Status) : Prop :=
  p.1 = Status.failure ∨ p.2 = Status.failure

/-- An attempt is terminal when either branch stops the loop. -/
abbrev terminalPair (p : Status × Status) : Prop :=
  bothSuccess p ∨ anyFailure p

/-- Dictionary lookup: the `(timestamp, status)` stored under key `k` (the
first — and, for dictionaries built by `dedupFold`, only — entry). -/
def lookupKey (k : String) (m : List (String × Int × Status)) :
    Option (Int × Status) :=
  (m.find? (fun e => decide (e.1 = k))).map (fun e => e.2)

/-- The `(timestamp, status)` pairs of an entry stream that carry key
`k`, in stream order. -/
def keyEntries (k : String) (l : List (String × Int × Status)) :
    List (Int × Status) :=
  (l.filter (fun e => decide (e.1 = k))).map (fun e => e.2)

/-- The two-candidate decision of the dedup loops: keep the stored pair
unless the incoming one has a strictly larger timestamp. -/
def keepLater (a b : Int × Status) : Int × Status :=
  if a.1 < b.1 then b else a

/-- `keepLater` lifted to an optional accumulator (no stored entry yet
means the incoming pair is stored). -/
def stepEntry (o : Option (Int × Status)) (e : Int × Status) :
    Option (Int × Status) :=
  match o with
  | none => some e
  | some a => some (keepLater a e)

/-- `geAll sub e`: the timestamp of `e` is at least every timestamp in
`sub`. -/
def geAll (sub : List (Int × Status)) (e : Int × Status) : Bool :=
  sub.all (fun x => decide (x.1 ≤ e.1))

/-- Specification-side description of the dedup winner, written from the
spec's words rather than from the code: the FIRST pair in stream order
whose timestamp is at least every timestamp in the stream — i.e. the
report with the greatest timestamp, earliest-seen winning ties. -/
def firstMax (sub : List (Int × Status)) : Option (Int × Status) :=
  sub.find? (geAll sub)

example : combinedStatusToStatus [] "" = .success := by decide
example : checkChecks [] "" = .pending := by decide
example : checkChecksV2 [] "" = .success := by decide
example :
    checkChecks
      [⟨"build", some 1, none, some "success", "completed", some 1⟩,
       ⟨"lint", some 1, none, some "failure", "completed", some 1⟩] "" = .failure := by
  decide
example :
    runLoop (fun _ => (Status.pending, Status.success)) 3 = ⟨false, true, 3, 3⟩ := by
  decide
example :
    runLoop (fun _ => (Status.failure, Status.success)) 3 = ⟨false, false, 1, 0⟩ := by
  decide

lemma anyFailure_not_bothSuccess {p : Status × Status} (h : anyFailure p) :
    ¬ bothSuccess p := by
  rcases h with h | h <;> rintro ⟨h1, h2⟩ <;> simp_all

lemma runAux_step_notTerminal (f : Nat → Status × Status) (fuel a s : Nat)
    (h : ¬ terminalPair (f a)) :
    runAux f (fuel + 1) a s = runAux f fuel (a + 1) (s + 1) := by
  have h1 : ¬ bothSuccess (f a) := fun hb => h (Or.inl hb)
  have h2 : ¬ anyFailure (f a) := fun hb => h (Or.inr hb)
  simp only [runAux, if_neg h1, if_neg h2]

lemma runAux_timeout (f : Nat → Status × Status) :
    ∀ fuel a s, (∀ i, i < fuel → ¬ terminalPair (f (a + i))) →
      runAux f fuel a s = ⟨false, true, a + fuel, s + fuel⟩ := by
  intro fuel
  induction fuel with
  | zero => intro a s _; simp [runAux]
  | succ m ih =>
    intro a s h
    have h0 : ¬ terminalPair (f a) := by
      have := h 0 (Nat.succ_pos m)
      simpa using this
    rw [runAux_step_notTerminal f m a s h0, ih (a + 1) (s + 1)
      (fun i hi => by
        have := h (i + 1) (Nat.succ_lt_succ hi)
        have e : a + (i + 1) = a + 1 + i := by omega
        rwa [e] at this)]
    have e1 : a + 1 + m = a + (m + 1) := by omega
    have e2 : s + 1 + m = s + (m + 1) := by omega
    rw [e1, e2]

lemma runAux_hit_success (f : Nat → Status × Status) :
    ∀ k fuel a s, k < fuel → (∀ i, i < k → ¬ terminalPair (f (a + i))) →
      bothSuccess (f (a + k)) →
      runAux f fuel a s = ⟨true, false, a + k + 1, s + k⟩ := by
  intro k
  induction k with
  | zero =>
    intro fuel a s hk _ hsuc
    obtain ⟨m, rfl⟩ : ∃ m, fuel = m + 1 := ⟨fuel - 1, by omega⟩
    have hsuc' : bothSuccess (f a) := by simpa using hsuc
    simp [runAux, if_pos hsuc']
  | succ k ih =>
    intro fuel a s hk hpre hsuc
    obtain ⟨m, rfl⟩ : ∃ m, fuel = m + 1 := ⟨fuel - 1, by omega⟩
    have h0 : ¬ terminalPair (f a) := by
      have := hpre 0 (Nat.succ_pos k)
      simpa using this
    rw [runAux_step_notTerminal f m a s h0, ih m (a + 1) (s + 1) (by omega)
      (fun i hi => by
        have := hpre (i + 1) (Nat.succ_lt_succ hi)
        have e : a + (i + 1) = a + 1 + i := by omega
        rwa [e] at this)
      (by
        have e : a + (k + 1) = a + 1 + k := by omega
        rwa [e] at hsuc)]
    have e1 : a + 1 + k + 1 = a + (k + 1) + 1 := by omega
    have e2 : s + 1 + k = s + (k + 1) := by omega
    rw [e1, e2]

lemma runAux_hit_failure (f : Nat → Status × Status) :
    ∀ k fuel a s, k < fuel → (∀ i, i < k → ¬ terminalPair (f (a + i))) →
      anyFailure (f (a + k)) →
      runAux f fuel a s = ⟨false, false, a + k + 1, s + k⟩ := by
  intro k
  induction k with
  | zero =>
    intro fuel a s hk _ hfail
    obtain ⟨m, rfl⟩ : ∃ m, fuel = m + 1 := ⟨fuel - 1, by omega⟩
    have hfail' : anyFailure (f a) := by simpa using hfail
    simp only [runAux, if_neg (anyFailure_not_bothSuccess hfail'), if_pos hfail']
    simp
  | succ k ih =>
    intro fuel a s hk hpre hfail
    obtain ⟨m, rfl⟩ : ∃ m, fuel = m + 1 := ⟨fuel - 1, by omega⟩
    have h0 : ¬ terminalPair (f a) := by
      have := hpre 0 (Nat.succ_pos k)
      simpa using this
    rw [runAux_step_notTerminal f m a s h0, ih m (a + 1) (s + 1) (by omega)
      (fun i hi => by
        have := hpre (i + 1) (Nat.succ_lt_succ hi)
        have e : a + (i + 1) = a + 1 + i := by omega
        rwa [e] at this)
      (by
        have e : a + (k + 1) = a + 1 + k := by omega
        rwa [e] at hfail)]
    have e1 : a + 1 + k + 1 = a + (k + 1) + 1 := by omega
    have e2 : s + 1 + k = s + (k + 1) := by omega
    rw [e1, e2]

/-- C2: over any per-attempt feed of (checks aggregate, statuses aggregate)
pairs and any positive `max_attempts` `n`, the loop stops with
`success=true` (and no timeout warning) at the first terminal attempt when
that attempt has both aggregates `Success`; stops with `success=false` and
no timeout warning at the first terminal attempt when that attempt has a
`Failure` aggregate; and if no attempt among the first `n` is terminal
(aggregates only `Pending`/`Unknown` mixtures with `Success` on at most one
side), it runs exactly `n` attempts and emits `success=false` with the
timeout warning. -/
theorem runLoop_first_terminal_attempt (f : Nat → Status × Status) (n : Nat)
    (_hn : 0 < n) :
    (∀ k, k < n → (∀ i, i < k → ¬ terminalPair (f i)) → bothSuccess (f k) →
      runLoop f n = ⟨true, false, k + 1, k⟩) ∧
    (∀ k, k < n → (∀ i, i < k → ¬ terminalPair (f i)) → anyFailure (f k) →
      runLoop f n = ⟨false, false, k + 1, k⟩) ∧
    ((∀ i, i < n → ¬ terminalPair (f i)) →
      runLoop f n = ⟨false, true, n, n⟩) := by
  refine ⟨fun k hk hpre hsuc => ?_, fun k hk hpre hfail => ?_, fun h => ?_⟩
  · have := runAux_hit_success f k n 0 0 hk (by simpa using hpre) (by simpa using hsuc)
    simpa [runLoop] using this
  · have := runAux_hit_failure f k n 0 0 hk (by simpa using hpre) (by simpa using hfail)
    simpa [runLoop] using this
  · have := runAux_timeout f n 0 0 (by simpa using h)
    simpa [runLoop] using this

/-- Witness for C2: a feed that is pending on attempt 0 and all-success on
attempt 1 stops after 2 attempts with `success=true` and one sleep. -/
theorem runLoop_first_terminal_attempt_witness :
    runLoop
      (fun i => if i = 1 then (Status.success, Status.success)
                else (Status.pending, Status.success)) 3 = ⟨true, false, 2, 1⟩ :=
  (runLoop_first_terminal_attempt
      (fun i => if i = 1 then (Status.success, Status.success)
                else (Status.pending, Status.success)) 3 (by decide)).1
    1 (by decide) (by decide) (by decide)

/-- C8 counterexample: with `max_attempts = 1` and a never-terminal feed,
the single attempt is the final allowed one, so under the claim no sleep
may occur — yet the loop body in `src/main.ts` reaches
`await sleep(checkIntervalMs)` before the loop condition fails, recording
one sleep. -/
theorem sleep_after_final_attempt_cex :
    (runLoop (fun _ => (Status.pending, Status.success)) 1).sleeps ≠ 0 := by
  decide

/-- C8 as amended: the loop never sleeps after a terminal attempt (on an
early stop after `k+1` attempts exactly `k` sleeps happened, one between
each consecutive pair of attempts), but after every NON-terminal attempt —
including the final allowed one — it sleeps once, so a timed-out session
of `n` attempts records `n` sleeps, not `n - 1`. -/
theorem runLoop_sleep_discipline (f : Nat → Status × Status) (n : Nat) :
    (∀ k, k < n → (∀ i, i < k → ¬ terminalPair (f i)) → terminalPair (f k) →
      (runLoop f n).sleeps = k ∧ (runLoop f n).attempts = k + 1) ∧
    ((∀ i, i < n → ¬ terminalPair (f i)) →
      (runLoop f n).sleeps = n ∧ (runLoop f n).attempts = n) := by
  constructor
  · intro k hk hpre hterm
    rcases hterm with hsuc | hfail
    · have := runAux_hit_success f k n 0 0 hk (by simpa using hpre) (by simpa using hsuc)
      simp [runLoop, this]
    · have := runAux_hit_failure f k n 0 0 hk (by simpa using hpre) (by simpa using hfail)
      simp [runLoop, this]
  · intro h
    have := runAux_timeout f n 0 0 (by simpa using h)
    simp [runLoop, this]

/-- Witness for C8 (amended): a feed that fails on attempt 2 of 5 yields 3
attempts and 2 sleeps; a never-terminal feed over 2 attempts yields 2
attempts and 2 sleeps. -/
theorem runLoop_sleep_discipline_witness :
    ((runLoop (fun i => if i = 2 then (Status.failure, Status.pending)
                        else (Status.pending, Status.pending)) 5).sleeps = 2 ∧
      (runLoop (fun i => if i = 2 then (Status.failure, Status.pending)
                        else (Status.pending, Status.pending)) 5).attempts = 3) ∧
    ((runLoop (fun _ => (Status.pending, Status.unknown)) 2).sleeps = 2 ∧
      (runLoop (fun _ => (Status.pending, Status.unknown)) 2).attempts = 2) :=
  ⟨(runLoop_sleep_discipline
      (fun i => if i = 2 then (Status.failure, Status.pending)
                else (Status.pending, Status.pending)) 5).1
      2 (by decide) (by decide) (by decide),
    (runLoop_sleep_discipline (fun _ => (Status.pending, Status.unknown)) 2).2
      (by decide)⟩

/-- C1 counterexample: with both sources empty and an empty ignore rule,
`src/main.ts` computes the commit-statuses aggregate `Success` but the
check-runs aggregate `Pending` (its reducer maps an empty value set to
`Pending`, line 183), so the first attempt does NOT emit `success=true`:
with `max_attempts = 1` the session ends with `success=false` and the
timeout warning. -/
theorem emptySources_first_attempt_cex :
    checkChecks [] "" = Status.pending ∧
    checkChecks [] "" ≠ Status.success ∧
    combinedStatusToStatus [] "" = Status.success ∧
    (runLoop (fun _ => (checkChecks [] "", combinedStatusToStatus [] "")) 1).success
      = false := by
  refine ⟨by decide, by decide, by decide, by decide⟩

/-- C1 as amended: in `src/main.ts`, a session in which both sources yield
zero reports (empty ignore rule) has commit-statuses aggregate `Success`
but check-runs aggregate `Pending`, so for every `max_attempts` the loop
runs all attempts and emits `success=false` with the timeout warning; the
claimed behaviour — both aggregates `Success`, `success=true` on the first
attempt — holds only of the refactored `checkChecks` variant (`part_004`),
whose reducer maps an empty value set to `Success`. -/
theorem emptySources_pollOutcome (n : Nat) :
    checkChecks [] "" = Status.pending ∧
    combinedStatusToStatus [] "" = Status.success ∧
    runLoop (fun _ => (checkChecks [] "", combinedStatusToStatus [] "")) n
      = ⟨false, true, n, n⟩ ∧
    checkChecksV2 [] "" = Status.success ∧
    runLoop (fun _ => (checkChecksV2 [] "", combinedStatusToStatus [] "")) 1
      = ⟨true, false, 1, 0⟩ := by
  refine ⟨by decide, by decide, ?_, by decide, by decide⟩
  have hc : checkChecks [] "" = Status.pending := by decide
  have hs : combinedStatusToStatus [] "" = Status.success := by decide
  have := runAux_timeout
    (fun _ => (checkChecks [] "", combinedStatusToStatus [] "")) n 0 0
    (by
      intro i _
      rw [hc, hs]
      rintro (⟨h1, _⟩ | h1 | h1) <;> simp_all)
  simpa [runLoop] using this

/-- C3: any `Failure` or `Canceled` among the deduplicated statuses makes
every reducer in the repository — the commit-statuses one, the check-runs
one of `src/main.ts`, and the refactored check-runs one — return
`Failure`, whatever else is present. -/
theorem reduce_failure_dominates (vals : List Status)
    (h : Status.failure ∈ vals ∨ Status.canceled ∈ vals) :
    reduceStatuses vals = Status.failure ∧
    reduceChecks vals = Status.failure ∧
    reduceChecksV2 vals = Status.failure := by
  refine ⟨?_, ?_, ?_⟩ <;>
    simp only [reduceStatuses, reduceChecks, reduceChecksV2, if_pos h]

/-- Witness for C3 at a set with one `Canceled` among `Success`es. -/
theorem reduce_failure_dominates_witness :
    reduceStatuses [Status.success, Status.canceled, Status.success]
      = Status.failure ∧
    reduceChecks [Status.success, Status.canceled, Status.success]
      = Status.failure ∧
    reduceChecksV2 [Status.success, Status.canceled, Status.success]
      = Status.failure :=
  reduce_failure_dominates [Status.success, Status.canceled, Status.success]
    (by decide)

lemma shouldIgnoreCheck_empty (name : String) :
    shouldIgnoreCheck "" name = false := rfl

/-- C6: the check classifier's full mapping table — `success|neutral` to
`Success`, `failure|timed_out` to `Failure`,
`pending|action_required|queued|in_progress` to `Pending`, `skipped` to
`Skipped`, `canceled|cancelled` to `Canceled`, everything else to
`Unknown` with the warning flag raised — and the fact that the string fed
to it by `checkChecks` is the `conclusion` field when present, else the
`status` field. -/
theorem checkClassifier_table :
    (checkToStatus "success" = (Status.success, false) ∧
      checkToStatus "neutral" = (Status.success, false)) ∧
    (checkToStatus "failure" = (Status.failure, false) ∧
      checkToStatus "timed_out" = (Status.failure, false)) ∧
    (checkToStatus "pending" = (Status.pending, false) ∧
      checkToStatus "action_required" = (Status.pending, false) ∧
      checkToStatus "queued" = (Status.pending, false) ∧
      checkToStatus "in_progress" = (Status.pending, false)) ∧
    checkToStatus "skipped" = (Status.skipped, false) ∧
    (checkToStatus "canceled" = (Status.canceled, false) ∧
      checkToStatus "cancelled" = (Status.canceled, false)) ∧
    (∀ s : String,
      s ∉ (["success", "neutral", "failure", "timed_out", "pending",
        "action_required", "queued", "in_progress", "skipped", "canceled",
        "cancelled"] : List String) →
      checkToStatus s = (Status.unknown, true)) ∧
    (∀ c : CheckRun, ∀ s, c.conclusion = some s → rawOf c = s) ∧
    (∀ c : CheckRun, c.conclusion = none → rawOf c = c.status) ∧
    (∀ (ignored : String) (c : CheckRun) (t : Int),
      shouldIgnoreCheck ignored c.name = false → tsOf c = some t →
      checkEntries ignored [c] = [(c.name, t, (checkToStatus (rawOf c)).1)]) := by
  refine ⟨⟨by decide, by decide⟩, ⟨by decide, by decide⟩,
    ⟨by decide, by decide, by decide, by decide⟩, by decide,
    ⟨by decide, by decide⟩, ?_, ?_, ?_, ?_⟩
  · intro s hs
    simp only [List.mem_cons, List.not_mem_nil, or_false, not_or] at hs
    obtain ⟨h1, h2, h3, h4, h5, h6, h7, h8, h9, h10, h11⟩ := hs
    simp [checkToStatus, h1, h2, h3, h4, h5, h6, h7, h8, h9, h10, h11]
  · intro c s h
    simp [rawOf, h]
  · intro c h
    simp [rawOf, h]
  · intro ignored c t hig ht
    simp [checkEntries, hig, ht]

/-- Witness for C6: an unrecognized conclusion string classifies as
`Unknown` with a warning, and a concrete run's entry classifies its
`conclusion` (not its `status`). -/
theorem checkClassifier_table_witness :
    checkToStatus "stale" = (Status.unknown, true) ∧
    checkEntries "" [⟨"build", some 5, none, some "neutral", "queued", none⟩]
      = [("build", 5, Status.success)] :=
  ⟨(checkClassifier_table.2.2.2.2.2.1) "stale" (by decide),
    by
      have := (checkClassifier_table.2.2.2.2.2.2.2.2) ""
        ⟨"build", some 5, none, some "neutral", "queued", none⟩ 5
        (by decide) (by decide)
      simpa using this⟩

lemma regexSearch_nil (t : List Char) : regexSearch [] t = true := by
  cases t <;> rfl

/-- C10: the single-character rule `/` both starts and ends with `/`, so
`shouldIgnoreCheck` takes the regex branch with the empty pattern
(`"/".slice(1, -1)` is the empty string), and an empty pattern matches in
every name: every check and status is ignored under this rule. -/
theorem slash_rule_ignores_everything (name : String) :
    shouldIgnoreCheck "/" name = regexSearch [] name.toList ∧
    shouldIgnoreCheck "/" name = true := by
  have h : shouldIgnoreCheck "/" name = regexSearch [] name.toList := by
    simp [shouldIgnoreCheck, shouldIgnoreCheckL]
  exact ⟨h, by rw [h, regexSearch_nil]⟩

lemma toList_eq_nil_iff (s : String) : s.toList = [] ↔ s = "" := by
  cases s
  simp [String.toList, String.ext_iff]

/-- C7: the three-way shape of `shouldIgnoreCheck` — an empty rule ignores
nothing; a rule whose first and last character are `/` is an unanchored,
case-sensitive regex test of its inner text against the name; any other
rule is a comma-separated list, and the name must appear verbatim as one
of the list elements — together with the spec's four concrete examples. -/
theorem shouldIgnore_rule_semantics :
    (∀ name : String, shouldIgnoreCheck "" name = false) ∧
    (∀ rule name : String, rule ≠ "" →
      rule.toList.head? = some '/' → rule.toList.getLast? = some '/' →
      shouldIgnoreCheck rule name
        = regexSearch (rule.toList.drop 1).dropLast name.toList) ∧
    (∀ rule name : String, rule ≠ "" →
      ¬ (rule.toList.head? = some '/' ∧ rule.toList.getLast? = some '/') →
      (shouldIgnoreCheck rule name = true ↔
        name.toList ∈ splitOnChar ',' rule.toList)) ∧
    (shouldIgnoreCheck "/^lint.*/" "lint-ts" = true ∧
      shouldIgnoreCheck "a,b,c" "b" = true ∧
      shouldIgnoreCheck "a,b,c" "d" = false ∧
      shouldIgnoreCheck "" "anything" = false) := by
  refine ⟨fun name => rfl, ?_, ?_, by decide, by decide, by decide, by decide⟩
  · intro rule name hne h1 h2
    have hnil : ¬ rule.toList = [] := fun h => hne ((toList_eq_nil_iff rule).1 h)
    simp only [shouldIgnoreCheck, shouldIgnoreCheckL, if_neg hnil,
      if_pos (And.intro h1 h2)]
  · intro rule name hne hcond
    have hnil : ¬ rule.toList = [] := fun h => hne ((toList_eq_nil_iff rule).1 h)
    simp only [shouldIgnoreCheck, shouldIgnoreCheckL, if_neg hnil, if_neg hcond,
      decide_eq_true_eq]

/-- Witness for C7: the regex branch at the spec's regex example and the
list branch at the spec's list example. -/
theorem shouldIgnore_rule_semantics_witness :
    shouldIgnoreCheck "/^lint.*/" "lint-ts"
      = regexSearch ("/^lint.*/".toList.drop 1).dropLast "lint-ts".toList ∧
    (shouldIgnoreCheck "a,b,c" "b" = true ↔
      "b".toList ∈ splitOnChar ',' "a,b,c".toList) :=
  ⟨shouldIgnore_rule_semantics.2.1 "/^lint.*/" "lint-ts" (by decide) (by decide)
      (by decide),
    shouldIgnore_rule_semantics.2.2.1 "a,b,c" "b" (by decide) (by decide)⟩

/-- C9 counterexample: a check run with neither `completed_at` nor
`started_at` whose name matches the ignore rule is dropped by the ignore
guard BEFORE the timestamp guard runs, so no
`no completed_at or started_at` warning is surfaced for it, contrary to
the claim's unconditional warning. -/
theorem noTimestamp_warning_cex :
    tsOf ⟨"x", none, none, none, "queued", none⟩ = none ∧
    droppedNoTs "x" [⟨"x", none, none, none, "queued", none⟩] = [] ∧
    statusByName "x" [⟨"x", none, none, none, "queued", none⟩] = [] := by
  refine ⟨rfl, by decide, by decide⟩

/-- C9 as amended: a check-run report with neither completion nor start
timestamp contributes no entry under any aggregation key, leaves the
check-runs aggregate exactly as if it were absent, and — when it is not
already excluded by the ignore rule — surfaces the missing-timestamp
warning; the drop is local and the attempt still produces an aggregate. -/
theorem noTimestamp_report_dropped (ignored : String) (c : CheckRun)
    (pre post : List CheckRun) (h : tsOf c = none) :
    checkEntries ignored (pre ++ c :: post) = checkEntries ignored (pre ++ post) ∧
    checkChecks (pre ++ c :: post) ignored = checkChecks (pre ++ post) ignored ∧
    (shouldIgnoreCheck ignored c.name = false →
      droppedNoTs ignored (pre ++ c :: post)
        = droppedNoTs ignored pre ++ c.name :: droppedNoTs ignored post) := by
  have he : checkEntries ignored (pre ++ c :: post)
      = checkEntries ignored (pre ++ post) := by
    by_cases hig : shouldIgnoreCheck ignored c.name = true <;>
      simp [checkEntries, List.filterMap_append, List.filterMap_cons, h, hig]
  refine ⟨he, by simp [checkChecks, statusByName, he], fun hig => ?_⟩
  simp [droppedNoTs, List.filterMap_append, List.filterMap_cons, h, hig]

/-- Witness for C9 (amended): a timestampless run between two healthy runs
changes neither the entries nor the aggregate, and its name is warned
about. -/
theorem noTimestamp_report_dropped_witness :
    checkChecks
      [⟨"a", some 1, none, some "success", "completed", none⟩,
       ⟨"ghost", none, none, none, "queued", none⟩,
       ⟨"b", some 2, none, some "success", "completed", none⟩] ""
      = checkChecks
        [⟨"a", some 1, none, some "success", "completed", none⟩,
         ⟨"b", some 2, none, some "success", "completed", none⟩] "" ∧
    droppedNoTs ""
      [⟨"a", some 1, none, some "success", "completed", none⟩,
       ⟨"ghost", none, none, none, "queued", none⟩,
       ⟨"b", some 2, none, some "success", "completed", none⟩]
      = ["ghost"] := by
  have := noTimestamp_report_dropped ""
    ⟨"ghost", none, none, none, "queued", none⟩
    [⟨"a", some 1, none, some "success", "completed", none⟩]
    [⟨"b", some 2, none, some "success", "completed", none⟩] rfl
  exact ⟨this.2.1, by
    have hw := this.2.2 (by decide)
    simpa [droppedNoTs] using hw⟩

/-- C4 counterexample: two check runs named `build` in DIFFERENT check
suites (ids 1 and 2). Under the claim they must survive as two separate
entries, but `checkChecks` in `src/main.ts` keys its dictionary by
`checkStatus.name` alone, so the later report supersedes the earlier one
and a single entry survives. -/
theorem checkRun_key_cex :
    statusByName ""
      [⟨"build", some 1, none, some "success", "completed", some 1⟩,
       ⟨"build", some 2, none, some "failure", "completed", some 2⟩]
      = [("build", 2, Status.failure)] ∧
    (statusByName ""
      [⟨"build", some 1, none, some "success", "completed", some 1⟩,
       ⟨"build", some 2, none, some "failure", "completed", some 2⟩]).length ≠ 2 := by
  refine ⟨by decide, by decide⟩

/-- C4 as amended: in `src/main.ts` the aggregation key for check runs is
the check name alone — any two reports sharing a name collapse to one
surviving entry regardless of their check-suite ids — while the
(check name, check-suite id) pair key of the claim is used only by the
refactored variant (`part_004`), where the same two same-named,
different-suite reports survive as two separate entries. -/
theorem checkRun_dedup_keying (ignored : String) (r1 r2 : CheckRun)
    (t1 t2 : Int) (hname : r1.name = r2.name)
    (hig : shouldIgnoreCheck ignored r1.name = false)
    (h1 : tsOf r1 = some t1) (h2 : tsOf r2 = some t2) :
    (statusByName ignored [r1, r2]).length = 1 ∧
    statusByNameV2 ""
      [⟨"build", some 1, none, some "success", "completed", some 1⟩,
       ⟨"build", some 2, none, some "failure", "completed", some 2⟩]
      = [("build|1", 1, Status.success), ("build|2", 2, Status.failure)] := by
  have hig2 : shouldIgnoreCheck ignored r2.name = false := hname ▸ hig
  have he : checkEntries ignored [r1, r2]
      = [(r1.name, t1, (checkToStatus (rawOf r1)).1),
         (r2.name, t2, (checkToStatus (rawOf r2)).1)] := by
    simp [checkEntries, hig, hig2, h1, h2]
  constructor
  · rw [statusByName, he]
    by_cases ht : t1 < t2 <;>
      simp [dedupFold, updateKey, hname, ht]
  · decide

/-- Witness for C4 (amended): two same-named runs in suites 7 and 8
collapse to a single surviving entry in `src/main.ts`. -/
theorem checkRun_dedup_keying_witness :
    (statusByName ""
      [⟨"ci", some 3, none, some "success", "completed", some 7⟩,
       ⟨"ci", some 4, none, some "failure", "completed", some 8⟩]).length = 1 :=
  (checkRun_dedup_keying ""
    ⟨"ci", some 3, none, some "success", "completed", some 7⟩
    ⟨"ci", some 4, none, some "failure", "completed", some 8⟩
    3 4 rfl (by decide) (by decide) (by decide)).1

lemma lookupKey_nil (k : String) : lookupKey k [] = none := rfl

lemma lookupKey_cons (k : String) (e : String × Int × Status)
    (m : List (String × Int × Status)) :
    lookupKey k (e :: m) = if e.1 = k then some e.2 else lookupKey k m := by
  by_cases h : e.1 = k <;> simp [lookupKey, List.find?_cons, h]

lemma lookupKey_updateKey_same (k : String) (ts : Int) (st : Status) :
    ∀ m : List (String × Int × Status),
      lookupKey k (updateKey m k ts st) = stepEntry (lookupKey k m) (ts, st) := by
  intro m
  induction m with
  | nil => simp [lookupKey_nil, lookupKey_cons, updateKey, stepEntry]
  | cons e rest ih =>
    obtain ⟨k', ts', st'⟩ := e
    by_cases hk : k' = k
    · subst hk
      by_cases ht : ts' < ts <;>
        simp [updateKey, ht, lookupKey_cons, stepEntry, keepLater]
    · simp [updateKey, hk, lookupKey_cons, ih, stepEntry]

lemma lookupKey_updateKey_ne (k k' : String) (hk : ¬ k' = k) (ts : Int)
    (st : Status) :
    ∀ m : List (String × Int × Status),
      lookupKey k (updateKey m k' ts st) = lookupKey k m := by
  intro m
  induction m with
  | nil => simp [lookupKey_nil, lookupKey_cons, updateKey, hk]
  | cons e rest ih =>
    obtain ⟨k'', ts'', st''⟩ := e
    by_cases hkk : k'' = k'
    · subst hkk
      by_cases ht : ts'' < ts <;>
        simp [updateKey, ht, lookupKey_cons, hk]
    · by_cases hsame : k'' = k
      · subst hsame
        simp [updateKey, hkk, lookupKey_cons]
      · simp [updateKey, hkk, lookupKey_cons, hsame, ih]

lemma keyEntries_cons (k : String) (e : String × Int × Status)
    (l : List (String × Int × Status)) :
    keyEntries k (e :: l)
      = if e.1 = k then e.2 :: keyEntries k l else keyEntries k l := by
  by_cases h : e.1 = k <;> simp [keyEntries, h]

lemma lookupKey_foldl (k : String) :
    ∀ (l : List (String × Int × Status)) (m : List (String × Int × Status)),
      lookupKey k (l.foldl (fun m e => updateKey m e.1 e.2.1 e.2.2) m)
        = (keyEntries k l).foldl stepEntry (lookupKey k m) := by
  intro l
  induction l with
  | nil => intro m; simp [keyEntries]
  | cons e rest ih =>
    intro m
    obtain ⟨ke, te, se⟩ := e
    by_cases hk : ke = k
    · subst hk
      simp [List.foldl_cons, ih, keyEntries_cons, lookupKey_updateKey_same]
    · simp [List.foldl_cons, ih, keyEntries_cons, hk,
        lookupKey_updateKey_ne k ke hk]

lemma foldl_stepEntry_some :
    ∀ (l : List (Int × Status)) (a : Int × Status),
      l.foldl stepEntry (some a) = some (l.foldl keepLater a) := by
  intro l
  induction l with
  | nil => intro a; rfl
  | cons e rest ih => intro a; simp only [List.foldl_cons, stepEntry, ih]

lemma find?_congr {α : Type} (p q : α → Bool) :
    ∀ l : List α, (∀ x ∈ l, p x = q x) → l.find? p = l.find? q := by
  intro l
  induction l with
  | nil => intro _; rfl
  | cons a t ih =>
    intro h
    have ha := h a (List.mem_cons_self a t)
    cases hq : q a with
    | true =>
      rw [List.find?_cons_of_pos _ (ha.trans hq), List.find?_cons_of_pos _ hq]
    | false =>
      rw [List.find?_cons_of_neg, List.find?_cons_of_neg, ih
        (fun x hx => h x (List.mem_cons_of_mem a hx))]
      · simp [hq]
      · simp [ha, hq]

lemma find?_head_pos {α : Type} (p : α → Bool) (a : α) (l : List α)
    (h : p a = true) : (a :: l).find? p = some a :=
  List.find?_cons_of_pos l h

lemma find?_head_neg {α : Type} (p : α → Bool) (a : α) (l : List α)
    (h : p a = false) : (a :: l).find? p = l.find? p :=
  List.find?_cons_of_neg l (by simp [h])

lemma geAll_eq_true (sub : List (Int × Status)) (e : Int × Status) :
    geAll sub e = true ↔ ∀ x ∈ sub, x.1 ≤ e.1 := by
  simp [geAll]

lemma geAll_eq_false (sub : List (Int × Status)) (e : Int × Status) :
    geAll sub e = false ↔ ∃ x ∈ sub, e.1 < x.1 := by
  simp only [Bool.eq_false_iff, ne_eq, geAll_eq_true, not_forall, not_le,
    exists_prop]

lemma geAll_cons (c : Int × Status) (t : List (Int × Status))
    (e : Int × Status) :
    geAll (c :: t) e = (decide (c.1 ≤ e.1) && geAll t e) := by
  simp [geAll]

lemma firstMax_cons_cons (a b : Int × Status) (l : List (Int × Status)) :
    firstMax (a :: b :: l) = firstMax (keepLater a b :: l) := by
  by_cases h : a.1 < b.1
  · rw [keepLater, if_pos h]
    have hpa : geAll (a :: b :: l) a = false :=
      (geAll_eq_false _ _).2 ⟨b, by simp, h⟩
    rw [firstMax, firstMax, find?_head_neg (geAll (a :: b :: l)) a (b :: l) hpa]
    refine find?_congr _ _ (b :: l) fun x hx => ?_
    rw [geAll_cons]
    cases hgx : geAll (b :: l) x with
    | false => simp
    | true =>
      have hbx : b.1 ≤ x.1 := (geAll_eq_true _ _).1 hgx b (by simp)
      have hax : a.1 ≤ x.1 := le_trans (le_of_lt h) hbx
      simp [hax]
  · rw [keepLater, if_neg h]
    have hba : b.1 ≤ a.1 := le_of_not_lt h
    have hfa : geAll (a :: b :: l) a = geAll (a :: l) a := by
      simp [geAll_cons, hba]
    cases hv : geAll (a :: l) a with
    | true =>
      rw [firstMax, find?_head_pos (geAll (a :: b :: l)) a (b :: l)
          (hfa.trans hv),
        firstMax, find?_head_pos (geAll (a :: l)) a l hv]
    | false =>
      obtain ⟨w, hwal, hwa⟩ := (geAll_eq_false _ _).1 hv
      have hwl : w ∈ l := by
        rcases List.mem_cons.1 hwal with rfl | hx'
        · exact absurd hwa (lt_irrefl _)
        · exact hx'
      have h3 : geAll (a :: b :: l) b = false :=
        (geAll_eq_false _ _).2 ⟨w, by simp [hwl], lt_of_le_of_lt hba hwa⟩
      rw [firstMax,
        find?_head_neg (geAll (a :: b :: l)) a (b :: l) (hfa.trans hv),
        find?_head_neg (geAll (a :: b :: l)) b l h3,
        firstMax, find?_head_neg (geAll (a :: l)) a l hv]
      refine find?_congr _ _ l fun x hx => ?_
      by_cases hax : a.1 ≤ x.1
      · have hbx : b.1 ≤ x.1 := le_trans hba hax
        simp [geAll_cons, hax, hbx]
      · simp [geAll_cons, hax]

lemma foldl_keepLater_firstMax :
    ∀ (l : List (Int × Status)) (a : Int × Status),
      firstMax (a :: l) = some (l.foldl keepLater a) := by
  intro l
  induction l with
  | nil =>
    intro a
    have hp : geAll [a] a = true := (geAll_eq_true _ _).2 (by simp)
    rw [firstMax, find?_head_pos (geAll [a]) a [] hp]
    rfl
  | cons b t ih =>
    intro a
    rw [firstMax_cons_cons, List.foldl_cons]
    exact ih (keepLater a b)

lemma lookupKey_dedupFold (k : String) (l : List (String × Int × Status)) :
    lookupKey k (dedupFold l) = firstMax (keyEntries k l) := by
  rw [dedupFold, lookupKey_foldl, lookupKey_nil]
  cases h : keyEntries k l with
  | nil => rfl
  | cons e rest =>
    have h0 : stepEntry none e = some e := rfl
    rw [List.foldl_cons, h0, foldl_stepEntry_some]
    exact (foldl_keepLater_firstMax rest e).symm

lemma updateKey_keys (k : String) (ts : Int) (st : Status) :
    ∀ m : List (String × Int × Status),
      (updateKey m k ts st).map Prod.fst
        = if k ∈ m.map Prod.fst then m.map Prod.fst
          else m.map Prod.fst ++ [k] := by
  intro m
  induction m with
  | nil => simp [updateKey]
  | cons e rest ih =>
    obtain ⟨k', ts', st'⟩ := e
    by_cases hk : k' = k
    · subst hk
      by_cases ht : ts' < ts <;> simp [updateKey, ht]
    · have hk' : ¬ k = k' := fun h => hk h.symm
      by_cases hm : k ∈ rest.map Prod.fst <;>
        simp [updateKey, hk, hk', hm, ih]

lemma dedupFold_keys_nodup (l : List (String × Int × Status)) :
    ((dedupFold l).map Prod.fst).Nodup := by
  suffices h : ∀ m : List (String × Int × Status),
      (m.map Prod.fst).Nodup →
      (((l.foldl (fun m e => updateKey m e.1 e.2.1 e.2.2) m)).map Prod.fst).Nodup by
    exact h [] (by simp)
  induction l with
  | nil => intro m hm; simpa using hm
  | cons e rest ih =>
    intro m hm
    simp only [List.foldl_cons]
    apply ih
    rw [updateKey_keys]
    by_cases hmem : e.1 ∈ m.map Prod.fst
    · simpa [hmem] using hm
    · simp [hmem, List.nodup_append, hm]

lemma firstMax_perm (sub' sub : List (Int × Status)) (hp : sub'.Perm sub)
    (hn : (sub.map Prod.fst).Nodup) : firstMax sub' = firstMax sub := by
  cases hsub : sub with
  | nil =>
    subst hsub
    rw [hp.eq_nil]
  | cons a l =>
    subst hsub
    cases hsub' : sub' with
    | nil =>
      subst hsub'
      exact absurd hp.symm.eq_nil (by simp)
    | cons b l' =>
      subst hsub'
      have h1 := foldl_keepLater_firstMax l a
      have h2 := foldl_keepLater_firstMax l' b
      have h1f : (a :: l).find? (geAll (a :: l)) = some (l.foldl keepLater a) :=
        h1
      have h2f : (b :: l').find? (geAll (b :: l')) = some (l'.foldl keepLater b) :=
        h2
      have hsP := List.find?_some h1f
      have hsP' := List.find?_some h2f
      have hsm := List.mem_of_find?_eq_some h1f
      have hsm' := List.mem_of_find?_eq_some h2f
      rw [h1, h2]
      congr 1
      have hub := (geAll_eq_true _ _).1 hsP
      have hub' := (geAll_eq_true _ _).1 hsP'
      have hmem_s' : l'.foldl keepLater b ∈ (a :: l) := hp.mem_iff.1 hsm'
      have hmem_s : l.foldl keepLater a ∈ (b :: l') := hp.mem_iff.2 hsm
      have hle1 : (l.foldl keepLater a).1 ≤ (l'.foldl keepLater b).1 :=
        hub' _ hmem_s
      have hle2 : (l'.foldl keepLater b).1 ≤ (l.foldl keepLater a).1 :=
        hub _ hmem_s'
      exact List.inj_on_of_nodup_map hn hmem_s' hsm
        (le_antisymm hle2 hle1)

/-- C5: after deduplication exactly one entry survives per aggregation key
(the dictionary's keys are pairwise distinct, and a key is present exactly
when it has entries); the surviving `(timestamp, status)` for a key is the
first entry in feed order whose timestamp is greatest among entries
sharing that key — so the strictly-latest report's status survives, and on
a timestamp tie the earliest-seen report's status is kept; and when the
key's timestamps are pairwise distinct the survivor is unchanged under any
reordering of the source feed. Stated for both the commit-statuses
dictionary and the check-runs dictionary of `src/main.ts`. -/
theorem dedup_latest_survives (ignored : String) (ss : List SimpleStatus)
    (cs : List CheckRun) (k : String) :
    ((statusByContext ignored ss).map Prod.fst).Nodup ∧
    ((statusByName ignored cs).map Prod.fst).Nodup ∧
    lookupKey k (statusByContext ignored ss)
      = firstMax (keyEntries k (statusEntries ignored ss)) ∧
    lookupKey k (statusByName ignored cs)
      = firstMax (keyEntries k (checkEntries ignored cs)) ∧
    ((lookupKey k (statusByContext ignored ss)).isSome ↔
      keyEntries k (statusEntries ignored ss) ≠ []) ∧
    (∀ ss' : List SimpleStatus, ss'.Perm ss →
      ((keyEntries k (statusEntries ignored ss)).map Prod.fst).Nodup →
      lookupKey k (statusByContext ignored ss')
        = lookupKey k (statusByContext ignored ss)) := by
  simp only [statusByContext, statusByName]
  refine ⟨dedupFold_keys_nodup _, dedupFold_keys_nodup _,
    lookupKey_dedupFold _ _, lookupKey_dedupFold _ _, ?_, ?_⟩
  · rw [lookupKey_dedupFold]
    cases h : keyEntries k (statusEntries ignored ss) with
    | nil => simp [firstMax]
    | cons e rest => simp [foldl_keepLater_firstMax rest e]
  · intro ss' hperm hnod
    rw [lookupKey_dedupFold, lookupKey_dedupFold]
    have h2 : (keyEntries k (statusEntries ignored ss')).Perm
        (keyEntries k (statusEntries ignored ss)) := by
      simp only [keyEntries]
      exact ((hperm.filterMap _).filter _).map _
    exact firstMax_perm _ _ h2 hnod

/-- Witness for C5: swapping two same-context reports with distinct
timestamps leaves the surviving entry unchanged. -/
theorem dedup_latest_survives_witness :
    lookupKey "ci"
      (statusByContext "" [⟨"ci", 9, "success"⟩, ⟨"ci", 5, "failure"⟩])
      = lookupKey "ci"
        (statusByContext "" [⟨"ci", 5, "failure"⟩, ⟨"ci", 9, "success"⟩]) :=
  (dedup_latest_survives "" [⟨"ci", 5, "failure"⟩, ⟨"ci", 9, "success"⟩] []
      "ci").2.2.2.2.2
    [⟨"ci", 9, "success"⟩, ⟨"ci", 5, "failure"⟩]
    (List.Perm.swap (⟨"ci", 5, "failure"⟩ : SimpleStatus)
      (⟨"ci", 9, "success"⟩ : SimpleStatus) [])
    (by decide)
